import Mathlib

/-!
Verification of the TF-IDF lexical-retrieval index implemented in
`src/services/vectorService.ts`.

The embedding is shallow: JavaScript `Map` objects become insertion-ordered
association lists, JavaScript numbers become real numbers (`Math.log` is
`Real.log`, `Math.sqrt` is `Real.sqrt`), and the class instance state
(`documents`, `idf`, `metadata`) becomes an explicit record that the
operations consume and produce.  Division by zero in the reals is `0`, which
coincides with the source's `similarity || 0` coercion of a `0/0` (`NaN`)
similarity; all index states reachable in the source satisfy the magnitude
invariant under which this is the only division-by-zero case.
-/

namespace VectorService

/-- A JavaScript `Map` modelled as an insertion-ordered association list.
`Map.set` on an existing key updates the value in place (keeping the key's
original position); on a fresh key it appends. -/
abbrev JsMap (α β : Type) : Type := List (α × β)

/-- Model of `Map.get`: the value stored at the first (unique, for maps built
through `mapSet`) entry with the given key, `none` for JavaScript `undefined`. -/
def mapGet {α β : Type} [DecidableEq α] : JsMap α β → α → Option β
  | [], _ => none
  | (k', v) :: rest, k => if k' = k then some v else mapGet rest k

/-- Model of the source's `map.get(k) || default` / `map.get(k) ?? default`
read pattern (a stored value equal to the default is indistinguishable). -/
def mapGetD {α β : Type} [DecidableEq α] (m : JsMap α β) (k : α) (d : β) : β :=
  (mapGet m k).getD d

/-- Model of `Map.set`. -/
def mapSet {α β : Type} [DecidableEq α] : JsMap α β → α → β → JsMap α β
  | [], k, v => [(k, v)]
  | (k', v') :: rest, k, v =>
    if k' = k then (k', v) :: rest else (k', v') :: mapSet rest k v

/-- The keys of a map, in insertion order. -/
def mapKeys {α β : Type} (m : JsMap α β) : List α :=
  m.map Prod.fst

/-- ASCII lower-casing of one character, as `toLowerCase` acts on the
characters the tokenizer keeps (every non-`[a-z0-9_]` character is discarded
right afterwards, so only the A-Z range is relevant). -/
def lowerChar (c : Char) : Char :=
  if 'A' ≤ c ∧ c ≤ 'Z' then Char.ofNat (c.toNat + 32) else c

/-- Characters kept by the tokenizer's regex character class `[a-z0-9_]`. -/
def isTokenChar (c : Char) : Bool :=
  ('a' ≤ c && c ≤ 'z') || ('0' ≤ c && c ≤ '9') || c == '_'

/-- Splitting a character list at every space, keeping empty segments exactly
as `String.prototype.split` does; the empty segments are removed by the
token-length filter that always follows. -/
def splitSpaces (cur : List Char) : List Char → List String
  | [] => [String.mk cur.reverse]
  | c :: cs =>
    if c = ' ' then String.mk cur.reverse :: splitSpaces [] cs
    else splitSpaces (c :: cur) cs

/-- The stop-word list of `tokenize` in `vectorService.ts`. -/
def stopWords : List String :=
  ["import", "from", "def", "class", "return", "self"]

/-- The `tokenize` function of `vectorService.ts`: lower-case, replace every
character outside `[a-z0-9_]` with a space, split on whitespace runs, keep
tokens of length `> 2` that are not stop words.  (The source splits on
`/\s+/`; after the replacement step the only whitespace character left is the
space, and splitting at every single space differs from splitting at runs
only by empty segments, which the length filter removes.) -/
def tokenize (text : String) : List String :=
  (splitSpaces []
      ((text.data.map lowerChar).map (fun c => if isTokenChar c then c else ' '))).filter
    (fun t => t.length > 2 && !stopWords.contains t)

/-- One input document of `createIndex` (`ProjectFile` in `types.ts`,
restricted to the fields the index reads; `language` ranges over
`python`/`text`/`other`). -/
structure ProjectFile where
  path : String
  content : String
  language : String
deriving DecidableEq

/-- Model of `String.prototype.endsWith`. -/
def strEndsWith (s suffix : String) : Bool :=
  suffix.data.isSuffixOf s.data

/-- The category filter of `createIndex`: a file is skipped when
`file.language !== 'python' && !file.path.endsWith('.txt') &&
!file.path.endsWith('.md')`; it is vectorized otherwise. -/
def shouldVectorize (file : ProjectFile) : Bool :=
  !(file.language != "python" && !strEndsWith file.path (".txt") &&
    !strEndsWith file.path (".md"))

/-- The files that survive the category filter, in input order. -/
def keptFiles (files : List ProjectFile) : List ProjectFile :=
  files.filter shouldVectorize

/-- Whitespace characters for the snippet's `replace(/\s+/g, ' ')`
(the escapes of the ECMAScript `\s` class that occur in text content). -/
def isWsChar (c : Char) : Bool :=
  c == ' ' || c == '\t' || c == '\n' || c == '\r' || c == '\x0b' || c == '\x0c'

/-- Replace every maximal whitespace run with a single space; the `Bool`
argument records whether the previous character belonged to a run. -/
def collapseWs : Bool → List Char → List Char
  | _, [] => []
  | inRun, c :: cs =>
    if isWsChar c then (if inRun then [] else [' ']) ++ collapseWs true cs
    else c :: collapseWs false cs

/-- The pseudo-metadata snippet of `createIndex`:
`content.slice(0, 200).replace(/\s+/g, ' ') + "..."`. -/
def snippetOf (content : String) : String :=
  String.mk (collapseWs false (content.data.take 200)) ++ "..."

/-- Bump a term's document count by one (`docCounts.set(t, (docCounts.get(t) || 0) + 1)`,
also the shape of the term-frequency update `tf.set(t, (tf.get(t) || 0) + 1)`). -/
def bumpCount (m : JsMap String Nat) (t : String) : JsMap String Nat :=
  mapSet m t (mapGetD m t 0 + 1)

/-- The term-frequency map of a token sequence. -/
def termFreq (tokens : List String) : JsMap String Nat :=
  tokens.foldl bumpCount []

/-- The corpus-wide document-count table: for every vectorized file, each
member of the set of its distinct tokens bumps the count once.  (`List.dedup`
models `new Set(tokens)`; it keeps one copy per token.  It retains the last
occurrence where the source's `Set` retains the first, which can permute the
table's entry order but never its key set or values; no observable behaviour
below depends on that order.) -/
def docCountsOf (files : List ProjectFile) : JsMap String Nat :=
  (keptFiles files).foldl
    (fun dc file => (tokenize file.content).dedup.foldl bumpCount dc) []

/-- The metadata table built by `createIndex`: `path ↦ snippet` for each
vectorized file. -/
def metadataOf (files : List ProjectFile) : JsMap String String :=
  (keptFiles files).foldl (fun md file => mapSet md file.path (snippetOf file.content)) []

/-- The number of vectorized documents that contain a term at least once.
This is the spec's `docFrequency`, phrased directly from its words; the
theorems below relate it to the `docCounts` table the source builds. -/
def docFrequency (files : List ProjectFile) (t : String) : Nat :=
  ((keptFiles files).filter (fun f => (tokenize f.content).contains t)).length

/-- The two-file corpus of the spec's `search("requests get")` scenario.
`.py` files are imported with `language: 'python'` by every caller that
builds `ProjectFile`s (`App.tsx`, `zipService.ts`, `githubService.ts`). -/
def corpusAB : List ProjectFile :=
  [{ path := "a.py", content := "def foo(): import requests\nrequests.get(url)",
     language := "python" },
   { path := "b.py", content := "def bar(): pass", language := "python" }]

/-- A one-file corpus whose document contains the token `database` five times
plus one non-interfering token, for the spec's single-document scenario. -/
def corpusDB : List ProjectFile :=
  [{ path := "db.py",
     content := "database database database database database example",
     language := "python" }]

noncomputable section

/-- The IDF table: `idf.set(term, Math.log(N / (1 + count)))` for every entry
of `docCounts`, with `N = files.length` (all input files, vectorized or not).
The `forEach`/`set` loop over the freshly cleared map writes each unique key
once, in iteration order, which is exactly an entry-wise map. -/
def idfOf (files : List ProjectFile) : JsMap String ℝ :=
  (docCountsOf files).map
    (fun tc => (tc.1, Real.log ((files.length : ℝ) / (1 + (tc.2 : ℝ)))))

/-- Apply IDF weights to a term-count map: `count * (idf.get(term) || 0)` per
entry.  Used both for document vectors and for the query vector, whose
source loops (`tf.forEach` writing into a fresh map, resp. `queryVector.forEach`
re-setting each of its own keys) write each unique key once in entry order. -/
def weightVec (idf : JsMap String ℝ) (tf : JsMap String Nat) : JsMap String ℝ :=
  tf.map (fun tc => (tc.1, (tc.2 : ℝ) * mapGetD idf tc.1 0))

/-- The accumulated sum of squared weights (`magnitudeSq += score * score`,
resp. `queryMagSq += score * score`). -/
def sumSquares (v : JsMap String ℝ) : ℝ :=
  (v.map (fun tw => tw.2 ^ 2)).sum

/-- `Math.sqrt` of the accumulated squared weights. -/
def vecMagnitude (v : JsMap String ℝ) : ℝ :=
  Real.sqrt (sumSquares v)

/-- One entry of the `documents` array (`DocumentVector` in the source). -/
structure DocumentVector where
  path : String
  vector : JsMap String ℝ
  magnitude : ℝ

/-- The instance state of the `VectorIndex` class. -/
structure VectorIndexState where
  documents : List DocumentVector
  idf : JsMap String ℝ
  metadata : JsMap String String

/-- The `VectorIndex` singleton before any call (`documents = []`, empty
`idf` and `metadata` maps). -/
def initialState : VectorIndexState :=
  { documents := [], idf := [], metadata := [] }

/-- `createIndex(files)`: clears the previous state (hence no dependence on
it), computes term frequencies and document counts over the vectorized files,
the IDF table over all `files.length` inputs, and the weighted vectors with
their magnitudes.  The prior state is discarded wholesale, so the model maps
the input list straight to the replacement state. -/
def createIndex (files : List ProjectFile) : VectorIndexState :=
  { documents :=
      (keptFiles files).map
        (fun f =>
          { path := f.path,
            vector := weightVec (idfOf files) (termFreq (tokenize f.content)),
            magnitude := vecMagnitude (weightVec (idfOf files) (termFreq (tokenize f.content))) }),
    idf := idfOf files,
    metadata := metadataOf files }

/-- One element of the array `search` returns. -/
structure SearchResult where
  path : String
  score : ℝ
  snippet : String

/-- The query vector: term counts of the tokenized query with the corpus IDF
applied (`count * (this.idf.get(term) || 0)`); unknown terms get weight 0. -/
def queryVectorOf (idf : JsMap String ℝ) (query : String) : JsMap String ℝ :=
  weightVec idf (termFreq (tokenize query))

/-- The dot product loop: for every query-vector entry, add
`qScore * dScore` when `doc.vector.get(term)` is truthy — that is, present
and non-zero; an absent or zero weight contributes nothing. -/
def dotProductOf (qv dv : JsMap String ℝ) : ℝ :=
  (qv.map
      (fun tq =>
        match mapGet dv tq.1 with
        | some d => if d = 0 then 0 else tq.2 * d
        | none => 0)).sum

/-- `similarity = dotProduct / (queryMagnitude * doc.magnitude)`, then
`similarity || 0`.  A zero denominator makes the JavaScript quotient `NaN`
(coerced to `0` by `|| 0`) whenever the numerator is also `0`, which the
magnitude invariant of reachable states guarantees; the real-valued model's
division-by-zero convention returns `0` in exactly that case. -/
def similarityOf (qv : JsMap String ℝ) (qMag : ℝ) (doc : DocumentVector) : ℝ :=
  dotProductOf qv doc.vector / (qMag * doc.magnitude)

/-- The per-document result record built inside `search`'s `map`. -/
def searchResultOf (metadata : JsMap String String) (qv : JsMap String ℝ)
    (qMag : ℝ) (doc : DocumentVector) : SearchResult :=
  { path := doc.path,
    score := similarityOf qv qMag doc,
    snippet := mapGetD metadata doc.path ("") }

/-- The sort comparator `(a, b) => b.score - a.score`: `a` precedes `b`
exactly when `b.score ≤ a.score`.  `Array.prototype.sort` is a stable sort
under this comparator, which `List.mergeSort` models. -/
def scoreDescBool (a b : SearchResult) : Bool :=
  decide (b.score ≤ a.score)

/-- `search(query, limit)` (the source defaults `limit` to 3 at the call
boundary): tokenize and vectorize the query, return `[]` on a zero query
magnitude, otherwise score every document, sort descending by score, keep
scores strictly above `0.1`, and truncate to `limit`. -/
def search (s : VectorIndexState) (query : String) (limit : Nat) : List SearchResult :=
  if vecMagnitude (queryVectorOf s.idf query) = 0 then []
  else
    (((s.documents.map
            (searchResultOf s.metadata (queryVectorOf s.idf query)
              (vecMagnitude (queryVectorOf s.idf query)))).mergeSort
          scoreDescBool).filter
        (fun r => decide ((0.1 : ℝ) < r.score))).take limit

/-- The state-transformer view of `search`: its body reads `this.documents`,
`this.idf` and `this.metadata` and writes only local variables, so the
instance state it hands back is the one it received. -/
def searchM (s : VectorIndexState) (query : String) (limit : Nat) :
    VectorIndexState × List SearchResult :=
  (s, search s query limit)

/-- A JSON value, the parse result of `JSON.parse` on which `importState`
operates and the argument `exportState` hands to `JSON.stringify`.
`JSON.parse ∘ JSON.stringify` is the identity on such values (ECMAScript
serializes numbers so that they re-parse to the same value), so the string
serialization layer is modelled as the identity on `Json`. -/
inductive Json where
  | null : Json
  | bool : Bool → Json
  | num : ℝ → Json
  | str : String → Json
  | arr : List Json → Json
  | obj : List (String × Json) → Json

/-- Property access `data.field` on a parsed JSON value: `none` models
`undefined` (absent field, or access on a non-object). -/
def jsField : Json → String → Option Json
  | .obj fields, k => mapGet fields k
  | _, _ => none

/-- Decode one iteration entry of `new Map(x)` restricted to the persisted
`idf` shape: an array whose first element is a string key and second a
number.  Any other entry makes the constructor throw in this typed model
(JavaScript throws a `TypeError` for every non-object entry; entries that
are objects of a different shape would be stored untyped and are outside the
persisted format — no theorem below depends on them). -/
def decodeNumEntry : Json → Option (String × ℝ)
  | .arr (.str k :: .num v :: _) => some (k, v)
  | _ => none

/-- Decode one entry of `new Map(x)` restricted to the persisted `metadata`
shape: a string key and a string value. -/
def decodeStrEntry : Json → Option (String × String)
  | .arr (.str k :: .str v :: _) => some (k, v)
  | _ => none

/-- Decode every entry or fail. -/
def decodeEntries {β : Type} (dec : Json → Option β) : List Json → Option (List β)
  | [] => some []
  | e :: es =>
    match dec e, decodeEntries dec es with
    | some b, some bs => some (b :: bs)
    | _, _ => none

/-- `new Map(x)` for an `x` expected to hold `[string, number]` entries:
`undefined` (`none`) and `null` give an empty map, an array of entries builds
the map by successive `set`s, anything else throws (`none` result). -/
def jsNewMapNum : Option Json → Option (JsMap String ℝ)
  | none => some []
  | some .null => some []
  | some (.arr entries) =>
    (decodeEntries decodeNumEntry entries).map
      (fun l => l.foldl (fun m kv => mapSet m kv.1 kv.2) [])
  | some _ => none

/-- `new Map(x)` for an `x` expected to hold `[string, string]` entries. -/
def jsNewMapStr : Option Json → Option (JsMap String String)
  | none => some []
  | some .null => some []
  | some (.arr entries) =>
    (decodeEntries decodeStrEntry entries).map
      (fun l => l.foldl (fun m kv => mapSet m kv.1 kv.2) [])
  | some _ => none

/-- `exportState()`: the object `{ idf: Array.from(this.idf.entries()),
metadata: Array.from(this.metadata.entries()) }` handed to `JSON.stringify`,
at the `Json` level. -/
def exportState (s : VectorIndexState) : Json :=
  .obj
    [("idf", .arr (s.idf.map (fun tw => .arr [.str tw.1, .num tw.2]))),
     ("metadata", .arr (s.metadata.map (fun ps => .arr [.str ps.1, .str ps.2])))]

/-- `importState(json)`: `payload = none` models an input string rejected by
`JSON.parse` (the thrown error is caught, nothing was assigned);
`payload = some data` models a successful parse.  The source then runs
`this.idf = new Map(data.idf); this.metadata = new Map(data.metadata);`
inside the same `try`: a throw in the first constructor leaves both tables,
a throw in the second leaves a state whose `idf` was already replaced. -/
def importState (s : VectorIndexState) (payload : Option Json) : VectorIndexState :=
  match payload with
  | none => s
  | some data =>
    match jsNewMapNum (jsField data ("idf")) with
    | none => s
    | some idf2 =>
      match jsNewMapStr (jsField data ("metadata")) with
      | none => { s with idf := idf2 }
      | some md2 => { s with idf := idf2, metadata := md2 }

/-- A document whose magnitude is zero, for the zero-magnitude safety claim. -/
def docZero : DocumentVector :=
  { path := "zero.py", vector := [], magnitude := 0 }

/-- An index state holding only the zero-magnitude document. -/
def stateZero : VectorIndexState :=
  { documents := [docZero], idf := [], metadata := [] }

/-- A small non-empty index state used as a concrete prior state for the
persistence claims. -/
def stateTiny : VectorIndexState :=
  { documents := [], idf := [("alpha", 2)], metadata := [("a.py", "alpha beta...")] }

/-- The parse result of the malformed payload string
`{"idf":[],"metadata":0}`: valid JSON that is not in the persisted format
(`metadata` is a number, not an entry array). -/
def badPayload : Json :=
  .obj [("idf", .arr []), ("metadata", .num 0)]

/-- The document vector that `createIndex corpusDB` builds for its single
file. -/
def docDB : DocumentVector :=
  { path := "db.py",
    vector := weightVec (idfOf corpusDB)
      (termFreq (tokenize "database database database database database example")),
    magnitude := vecMagnitude (weightVec (idfOf corpusDB)
      (termFreq (tokenize "database database database database database example"))) }

end

theorem mapKeys_nil {α β : Type} : mapKeys ([] : JsMap α β) = [] :=
  rfl

theorem mapKeys_cons {α β : Type} (e : α × β) (m : JsMap α β) :
    mapKeys (e :: m) = e.1 :: mapKeys m :=
  rfl

theorem mapKeys_append {α β : Type} (m₁ m₂ : JsMap α β) :
    mapKeys (m₁ ++ m₂) = mapKeys m₁ ++ mapKeys m₂ :=
  List.map_append _ _ _

theorem mapGet_mapSet {α β : Type} [DecidableEq α] (m : JsMap α β) (k k' : α) (v : β) :
    mapGet (mapSet m k v) k' = if k = k' then some v else mapGet m k' := by
  induction m with
  | nil => simp [mapSet, mapGet]
  | cons e rest ih =>
    obtain ⟨k₀, v₀⟩ := e
    by_cases h₀ : k₀ = k
    · subst h₀
      by_cases h₁ : k₀ = k' <;> simp [mapSet, mapGet, h₁]
    · have hkk : ¬k = k₀ := fun h => h₀ h.symm
      by_cases h₁ : k₀ = k'
      · subst h₁
        simp [mapSet, mapGet, h₀, hkk]
      · simp [mapSet, mapGet, h₀, h₁, ih]

theorem mapKeys_mapSet {α β : Type} [DecidableEq α] (m : JsMap α β) (k : α) (v : β) :
    mapKeys (mapSet m k v) =
      if k ∈ mapKeys m then mapKeys m else mapKeys m ++ [k] := by
  induction m with
  | nil => simp [mapSet, mapKeys]
  | cons e rest ih =>
    obtain ⟨k₀, v₀⟩ := e
    by_cases h₀ : k₀ = k
    · subst h₀
      simp [mapSet, mapKeys_cons]
    · have hkk : ¬k = k₀ := fun h => h₀ h.symm
      have hstep : mapSet ((k₀, v₀) :: rest) k v = (k₀, v₀) :: mapSet rest k v := by
        simp [mapSet, h₀]
      rw [hstep, mapKeys_cons, mapKeys_cons, ih]
      by_cases h₁ : k ∈ mapKeys rest
      · rw [if_pos h₁, if_pos (List.mem_cons_of_mem _ h₁)]
      · rw [if_neg h₁, if_neg (by simp [hkk, h₁])]
        rfl

theorem nodup_mapKeys_mapSet {α β : Type} [DecidableEq α] (m : JsMap α β) (k : α) (v : β)
    (h : (mapKeys m).Nodup) : (mapKeys (mapSet m k v)).Nodup := by
  rw [mapKeys_mapSet]
  by_cases hk : k ∈ mapKeys m
  · simpa [hk] using h
  · rw [if_neg hk, List.nodup_append]
    refine ⟨h, List.nodup_singleton k, ?_⟩
    intro a ha hb
    rw [List.mem_singleton] at hb
    exact hk (hb ▸ ha)

theorem mapGet_eq_none_iff {α β : Type} [DecidableEq α] (m : JsMap α β) (k : α) :
    mapGet m k = none ↔ k ∉ mapKeys m := by
  induction m with
  | nil => simp [mapGet, mapKeys]
  | cons e rest ih =>
    obtain ⟨k₀, v₀⟩ := e
    rw [mapKeys_cons]
    by_cases h₀ : k₀ = k
    · subst h₀
      simp [mapGet]
    · have hkk : ¬k = k₀ := fun h => h₀ h.symm
      simp [mapGet, h₀, hkk, ih]

theorem mapGet_mem {α β : Type} [DecidableEq α] {m : JsMap α β} {k : α} {v : β}
    (h : mapGet m k = some v) : (k, v) ∈ m := by
  induction m with
  | nil => simp [mapGet] at h
  | cons e rest ih =>
    obtain ⟨k₀, v₀⟩ := e
    by_cases h₀ : k₀ = k
    · subst h₀
      have hv : some v₀ = some v := by simpa [mapGet] using h
      obtain rfl := Option.some.inj hv
      exact List.mem_cons_self _ _
    · refine List.mem_cons_of_mem _ (ih ?_)
      simpa [mapGet, h₀] using h

theorem mapGet_map_entry {α β γ : Type} [DecidableEq α] (m : JsMap α β)
    (f : α → β → γ) (k : α) :
    mapGet (m.map (fun tc => (tc.1, f tc.1 tc.2))) k = (mapGet m k).map (f k) := by
  induction m with
  | nil => simp [mapGet]
  | cons e rest ih =>
    obtain ⟨k₀, v₀⟩ := e
    by_cases h₀ : k₀ = k
    · subst h₀
      simp [mapGet]
    · simp [mapGet, h₀, ih]

theorem mapKeys_map_entry {α β γ : Type} (m : JsMap α β) (f : α → β → γ) :
    mapKeys (m.map (fun tc => (tc.1, f tc.1 tc.2))) = mapKeys m := by
  simp [mapKeys, List.map_map, Function.comp]

theorem mapSet_of_not_mem {α β : Type} [DecidableEq α] {m : JsMap α β} {k : α} (v : β)
    (h : k ∉ mapKeys m) : mapSet m k v = m ++ [(k, v)] := by
  induction m with
  | nil => simp [mapSet]
  | cons e rest ih =>
    obtain ⟨k₀, v₀⟩ := e
    rw [mapKeys_cons, List.mem_cons] at h
    push_neg at h
    have h₀ : ¬k₀ = k := fun hh => h.1 hh.symm
    rw [show mapSet ((k₀, v₀) :: rest) k v = (k₀, v₀) :: mapSet rest k v by
      simp [mapSet, h₀]]
    rw [ih h.2, List.cons_append]

theorem foldl_mapSet_append {α β : Type} [DecidableEq α] (l : JsMap α β) :
    ∀ acc : JsMap α β, (mapKeys l).Nodup → (∀ k ∈ mapKeys l, k ∉ mapKeys acc) →
      l.foldl (fun m kv => mapSet m kv.1 kv.2) acc = acc ++ l := by
  induction l with
  | nil => intro acc _ _; simp
  | cons e rest ih =>
    intro acc hnd hdisj
    obtain ⟨k₀, v₀⟩ := e
    rw [mapKeys_cons, List.nodup_cons] at hnd
    simp only [List.foldl_cons]
    rw [show mapSet acc (k₀, v₀).1 (k₀, v₀).2 = acc ++ [(k₀, v₀)] from
      mapSet_of_not_mem _ (hdisj k₀ (by rw [mapKeys_cons]; exact List.mem_cons_self _ _))]
    rw [ih (acc ++ [(k₀, v₀)]) hnd.2 ?_]
    · simp
    · intro kk hk
      rw [mapKeys_append, List.mem_append]
      push_neg
      refine ⟨hdisj kk (by rw [mapKeys_cons]; exact List.mem_cons_of_mem _ hk), ?_⟩
      intro hkk
      rw [show mapKeys [(k₀, v₀)] = [k₀] from rfl, List.mem_singleton] at hkk
      exact hnd.1 (hkk ▸ hk)

theorem mapGet_append_left_none {α β : Type} [DecidableEq α] {l₁ : JsMap α β}
    (l₂ : JsMap α β) {k : α} (h : ∀ e ∈ l₁, e.1 ≠ k) :
    mapGet (l₁ ++ l₂) k = mapGet l₂ k := by
  induction l₁ with
  | nil => simp
  | cons e rest ih =>
    obtain ⟨k₀, v₀⟩ := e
    have hne : k₀ ≠ k := h (k₀, v₀) (List.mem_cons_self _ _)
    rw [List.cons_append, show mapGet ((k₀, v₀) :: (rest ++ l₂)) k = mapGet (rest ++ l₂) k by
      simp [mapGet, hne]]
    exact ih (fun e he => h e (List.mem_cons_of_mem _ he))

theorem mapGet_eraseP_ne {α β : Type} [DecidableEq α] (l : JsMap α β) {k k' : α}
    (h : k' ≠ k) :
    mapGet (l.eraseP (fun e => e.1 == k)) k' = mapGet l k' := by
  induction l with
  | nil => simp
  | cons e rest ih =>
    obtain ⟨k₀, v₀⟩ := e
    by_cases h₀ : k₀ = k
    · subst h₀
      rw [List.eraseP_cons, show (((k₀, v₀).1 == k₀) : Bool) = true by simp, cond_true]
      have hne : ¬k₀ = k' := fun hh => h hh.symm
      simp [mapGet, hne]
    · rw [List.eraseP_cons, show (((k₀, v₀).1 == k) : Bool) = false by simpa using h₀,
        cond_false]
      by_cases h₁ : k₀ = k'
      · subst h₁
        simp [mapGet]
      · simp [mapGet, h₁, ih]

theorem mapGetD_bumpCount (m : JsMap String Nat) (t' t : String) :
    mapGetD (bumpCount m t') t 0 = mapGetD m t 0 + if t' = t then 1 else 0 := by
  unfold bumpCount mapGetD
  rw [mapGet_mapSet]
  by_cases h : t' = t
  · subst h
    simp [mapGetD]
  · simp [h]

theorem mem_mapKeys_bumpCount (m : JsMap String Nat) (t' k : String) :
    k ∈ mapKeys (bumpCount m t') ↔ k ∈ mapKeys m ∨ k = t' := by
  unfold bumpCount
  rw [mapKeys_mapSet]
  by_cases h : t' ∈ mapKeys m
  · simp only [if_pos h]
    constructor
    · exact Or.inl
    · rintro (hk | rfl)
      · exact hk
      · exact h
  · simp [if_neg h, List.mem_append]

theorem nodup_mapKeys_bumpCount (m : JsMap String Nat) (t : String)
    (h : (mapKeys m).Nodup) : (mapKeys (bumpCount m t)).Nodup :=
  nodup_mapKeys_mapSet m t _ h

theorem mapGetD_foldl_bump (ts : List String) :
    ∀ m : JsMap String Nat, ∀ t : String,
      mapGetD (ts.foldl bumpCount m) t 0 = mapGetD m t 0 + ts.count t := by
  induction ts with
  | nil => intro m t; simp [mapGetD]
  | cons t' rest ih =>
    intro m t
    rw [List.foldl_cons, ih (bumpCount m t') t, mapGetD_bumpCount]
    rw [List.count_cons]
    by_cases h : t' = t <;> simp [h] <;> omega

theorem mem_mapKeys_foldl_bump (ts : List String) :
    ∀ m : JsMap String Nat, ∀ k : String,
      k ∈ mapKeys (ts.foldl bumpCount m) ↔ k ∈ mapKeys m ∨ k ∈ ts := by
  induction ts with
  | nil => intro m k; simp
  | cons t' rest ih =>
    intro m k
    rw [List.foldl_cons, ih (bumpCount m t') k, mem_mapKeys_bumpCount]
    simp only [List.mem_cons]
    tauto

theorem nodup_mapKeys_foldl_bump (ts : List String) :
    ∀ m : JsMap String Nat, (mapKeys m).Nodup → (mapKeys (ts.foldl bumpCount m)).Nodup := by
  induction ts with
  | nil => intro m h; exact h
  | cons t' rest ih =>
    intro m h
    exact ih (bumpCount m t') (nodup_mapKeys_bumpCount m t' h)

theorem mapGetD_termFreq (ts : List String) (t : String) :
    mapGetD (termFreq ts) t 0 = ts.count t := by
  unfold termFreq
  rw [mapGetD_foldl_bump]
  simp [mapGetD, mapGet]

theorem mem_mapKeys_termFreq (ts : List String) (k : String) :
    k ∈ mapKeys (termFreq ts) ↔ k ∈ ts := by
  unfold termFreq
  rw [mem_mapKeys_foldl_bump]
  simp [mapKeys]

theorem nodup_mapKeys_termFreq (ts : List String) : (mapKeys (termFreq ts)).Nodup :=
  nodup_mapKeys_foldl_bump ts [] (by simp [mapKeys])

theorem mapGetD_dedup_bump (ts : List String) (dc : JsMap String Nat) (t : String) :
    mapGetD (ts.dedup.foldl bumpCount dc) t 0 =
      mapGetD dc t 0 + if t ∈ ts then 1 else 0 := by
  rw [mapGetD_foldl_bump, List.count_dedup]

theorem mapGetD_docCounts (files : List ProjectFile) (t : String) :
    mapGetD (docCountsOf files) t 0 = docFrequency files t := by
  unfold docCountsOf docFrequency
  have main : ∀ fs : List ProjectFile, ∀ acc : JsMap String Nat,
      mapGetD (fs.foldl (fun dc file => (tokenize file.content).dedup.foldl bumpCount dc) acc) t 0 =
        mapGetD acc t 0 + (fs.filter (fun f => (tokenize f.content).contains t)).length := by
    intro fs
    induction fs with
    | nil => intro acc; simp
    | cons f rest ih =>
      intro acc
      rw [List.foldl_cons, ih, mapGetD_dedup_bump]
      by_cases h : t ∈ tokenize f.content
      · have hc : (tokenize f.content).contains t = true := by simpa using h
        rw [if_pos h, List.filter_cons, if_pos hc, List.length_cons]
        omega
      · rw [if_neg h, List.filter_cons, if_neg (by simpa using h)]
        omega
  rw [main (keptFiles files) []]
  simp [mapGetD, mapGet]

theorem mem_mapKeys_docCounts (files : List ProjectFile) (t : String) :
    t ∈ mapKeys (docCountsOf files) ↔ ∃ f ∈ keptFiles files, t ∈ tokenize f.content := by
  unfold docCountsOf
  have main : ∀ fs : List ProjectFile, ∀ acc : JsMap String Nat,
      (t ∈ mapKeys (fs.foldl (fun dc file => (tokenize file.content).dedup.foldl bumpCount dc) acc) ↔
        t ∈ mapKeys acc ∨ ∃ f ∈ fs, t ∈ tokenize f.content) := by
    intro fs
    induction fs with
    | nil => intro acc; simp
    | cons f rest ih =>
      intro acc
      rw [List.foldl_cons, ih, mem_mapKeys_foldl_bump]
      simp only [List.mem_dedup, List.mem_cons]
      constructor
      · rintro ((h | h) | ⟨g, hg, hgt⟩)
        · exact Or.inl h
        · exact Or.inr ⟨f, Or.inl rfl, h⟩
        · exact Or.inr ⟨g, Or.inr hg, hgt⟩
      · rintro (h | ⟨g, (rfl | hg), hgt⟩)
        · exact Or.inl (Or.inl h)
        · exact Or.inl (Or.inr hgt)
        · exact Or.inr ⟨g, hg, hgt⟩
  rw [main (keptFiles files) []]
  simp [mapKeys]

theorem nodup_mapKeys_docCounts (files : List ProjectFile) :
    (mapKeys (docCountsOf files)).Nodup := by
  unfold docCountsOf
  have main : ∀ fs : List ProjectFile, ∀ acc : JsMap String Nat, (mapKeys acc).Nodup →
      (mapKeys (fs.foldl (fun dc file => (tokenize file.content).dedup.foldl bumpCount dc) acc)).Nodup := by
    intro fs
    induction fs with
    | nil => intro acc h; exact h
    | cons f rest ih =>
      intro acc h
      exact ih _ (nodup_mapKeys_foldl_bump _ _ h)
  exact main (keptFiles files) [] (by simp [mapKeys])

theorem docFrequency_eq_zero_iff (files : List ProjectFile) (t : String) :
    docFrequency files t = 0 ↔ ∀ f ∈ keptFiles files, t ∉ tokenize f.content := by
  unfold docFrequency
  rw [List.length_eq_zero, List.filter_eq_nil_iff]
  constructor
  · intro h f hf hmem
    exact h f hf (by simpa using hmem)
  · intro h f hf hc
    exact h f hf (by simpa using hc)

theorem mapGet_docCounts_none_iff (files : List ProjectFile) (t : String) :
    mapGet (docCountsOf files) t = none ↔ docFrequency files t = 0 := by
  rw [mapGet_eq_none_iff, mem_mapKeys_docCounts, docFrequency_eq_zero_iff]
  push_neg
  constructor
  · intro h f hf
    exact h f hf
  · intro h f hf
    exact h f hf

theorem sumSquares_nonneg (v : JsMap String ℝ) : 0 ≤ sumSquares v := by
  unfold sumSquares
  apply List.sum_nonneg
  intro x hx
  obtain ⟨e, _, rfl⟩ := List.mem_map.mp hx
  exact sq_nonneg _

theorem sumSquares_eq_zero_iff (v : JsMap String ℝ) :
    sumSquares v = 0 ↔ ∀ e ∈ v, e.2 = 0 := by
  unfold sumSquares
  induction v with
  | nil => simp
  | cons e rest ih =>
    rw [List.map_cons, List.sum_cons]
    have hrest : 0 ≤ (rest.map (fun tw => tw.2 ^ 2)).sum := by
      apply List.sum_nonneg
      intro x hx
      obtain ⟨a, _, rfl⟩ := List.mem_map.mp hx
      exact sq_nonneg _
    rw [add_eq_zero_iff_of_nonneg (sq_nonneg e.2) hrest]
    constructor
    · rintro ⟨h1, h2⟩ x hx
      rcases List.mem_cons.mp hx with rfl | hx
      · exact sq_eq_zero_iff.mp h1
      · exact ih.mp h2 x hx
    · intro h
      refine ⟨sq_eq_zero_iff.mpr (h e (List.mem_cons_self _ _)), ih.mpr ?_⟩
      intro x hx
      exact h x (List.mem_cons_of_mem _ hx)

theorem vecMagnitude_nonneg (v : JsMap String ℝ) : 0 ≤ vecMagnitude v :=
  Real.sqrt_nonneg _

theorem vecMagnitude_eq_zero_iff (v : JsMap String ℝ) :
    vecMagnitude v = 0 ↔ ∀ e ∈ v, e.2 = 0 := by
  unfold vecMagnitude
  rw [Real.sqrt_eq_zero']
  constructor
  · intro h
    exact (sumSquares_eq_zero_iff v).mp (le_antisymm h (sumSquares_nonneg v))
  · intro h
    rw [(sumSquares_eq_zero_iff v).mpr h]

theorem mapGet_weightVec (idf : JsMap String ℝ) (tf : JsMap String Nat) (t : String) :
    mapGet (weightVec idf tf) t =
      (mapGet tf t).map (fun (c : Nat) => (c : ℝ) * mapGetD idf t 0) := by
  unfold weightVec
  exact mapGet_map_entry tf (fun t c => (c : ℝ) * mapGetD idf t 0) t

theorem mapKeys_weightVec (idf : JsMap String ℝ) (tf : JsMap String Nat) :
    mapKeys (weightVec idf tf) = mapKeys tf := by
  unfold weightVec
  exact mapKeys_map_entry tf (fun t c => (c : ℝ) * mapGetD idf t 0)

theorem nodup_mapKeys_queryVector (idf : JsMap String ℝ) (query : String) :
    (mapKeys (queryVectorOf idf query)).Nodup := by
  unfold queryVectorOf
  rw [mapKeys_weightVec]
  exact nodup_mapKeys_termFreq _

theorem mapGet_idfOf (files : List ProjectFile) (t : String) :
    mapGet (idfOf files) t =
      (mapGet (docCountsOf files) t).map
        (fun (c : Nat) => Real.log ((files.length : ℝ) / (1 + (c : ℝ)))) := by
  unfold idfOf
  exact mapGet_map_entry (docCountsOf files)
    (fun _ c => Real.log ((files.length : ℝ) / (1 + (c : ℝ)))) t

theorem dotProductOf_eq (qv dv : JsMap String ℝ) :
    dotProductOf qv dv = (qv.map (fun tq => tq.2 * mapGetD dv tq.1 0)).sum := by
  unfold dotProductOf
  congr 1
  apply List.map_congr_left
  intro tq _
  cases hg : mapGet dv tq.1 with
  | none => simp [mapGetD, hg]
  | some d =>
    by_cases hd : d = 0
    · simp [mapGetD, hg, hd]
    · simp [mapGetD, hg, hd]

theorem dotProductOf_eq_zero_of_zero_vec (qv dv : JsMap String ℝ)
    (h : ∀ e ∈ dv, e.2 = 0) : dotProductOf qv dv = 0 := by
  rw [dotProductOf_eq]
  apply List.sum_eq_zero
  intro x hx
  obtain ⟨tq, _, rfl⟩ := List.mem_map.mp hx
  cases hg : mapGet dv tq.1 with
  | none => simp [mapGetD, hg]
  | some d =>
    have hd : d = 0 := h (tq.1, d) (mapGet_mem hg)
    simp [mapGetD, hg, hd]

theorem sum_map_eq_finsetSum {α : Type} (l : List α) (f : α → ℝ) :
    (l.map f).sum = ∑ i : Fin l.length, f (l.get i) := by
  conv_lhs => rw [← List.ofFn_get l]
  rw [List.map_ofFn, List.sum_ofFn]
  rfl

theorem list_cauchy_schwarz (l : List (ℝ × ℝ)) :
    ((l.map (fun p => p.1 * p.2)).sum) ^ 2 ≤
      ((l.map (fun p => p.1 ^ 2)).sum) * ((l.map (fun p => p.2 ^ 2)).sum) := by
  rw [sum_map_eq_finsetSum l (fun p => p.1 * p.2), sum_map_eq_finsetSum l (fun p => p.1 ^ 2),
    sum_map_eq_finsetSum l (fun p => p.2 ^ 2)]
  exact Finset.sum_mul_sq_le_sq_mul_sq Finset.univ _ _

theorem sum_getD_sq_le (qv : JsMap String ℝ) :
    ∀ dv : JsMap String ℝ, (mapKeys qv).Nodup →
      ((qv.map (fun tq => (mapGetD dv tq.1 0) ^ 2)).sum) ≤ sumSquares dv := by
  induction qv with
  | nil =>
    intro dv _
    simpa using sumSquares_nonneg dv
  | cons e rest ih =>
    intro dv hnd
    obtain ⟨t, q⟩ := e
    rw [mapKeys_cons, List.nodup_cons] at hnd
    rw [List.map_cons, List.sum_cons]
    have htail : (rest.map (fun tq => (mapGetD dv tq.1 0) ^ 2)).sum
        = (rest.map (fun tq => (mapGetD (dv.eraseP (fun e => e.1 == t)) tq.1 0) ^ 2)).sum := by
      congr 1
      apply List.map_congr_left
      intro a ha
      have hne : a.1 ≠ t := by
        intro hh
        apply hnd.1
        rw [← hh]
        exact List.mem_map.mpr ⟨a, ha, rfl⟩
      rw [mapGetD, mapGetD, mapGet_eraseP_ne dv hne]
    rw [htail]
    have h2 := ih (dv.eraseP (fun e => e.1 == t)) hnd.2
    have hhead : (mapGetD dv (t, q).1 0) ^ 2 + sumSquares (dv.eraseP (fun e => e.1 == t))
        ≤ sumSquares dv := by
      cases hg : mapGet dv t with
      | none =>
        have hnomatch : dv.eraseP (fun e => e.1 == t) = dv := by
          apply List.eraseP_of_forall_not
          intro a ha
          have hmem : t ∉ mapKeys dv := (mapGet_eq_none_iff dv t).mp hg
          simp only [beq_iff_eq]
          intro hh
          apply hmem
          rw [← hh]
          exact List.mem_map.mpr ⟨a, ha, rfl⟩
        rw [hnomatch]
        have : mapGetD dv (t, q).1 0 = 0 := by simp [mapGetD, hg]
        rw [this]
        simp
      | some w =>
        obtain ⟨b, l₁, l₂, hl₁, hpb, hsplit, herase⟩ :=
          @List.exists_of_eraseP _ (fun e => e.1 == t) dv (t, w) (mapGet_mem hg) (by simp)
        have hbt : b.1 = t := by simpa using hpb
        have hgetb : mapGet dv t = some b.2 := by
          rw [hsplit, mapGet_append_left_none (b :: l₂)
            (fun e he => by simpa using hl₁ e he)]
          obtain ⟨b1, b2⟩ := b
          simp only at hbt
          subst hbt
          simp [mapGet]
        have hget : mapGetD dv (t, q).1 0 = b.2 := by simp [mapGetD, hgetb]
        have hsq : sumSquares dv = sumSquares l₁ + (b.2 ^ 2 + sumSquares l₂) := by
          rw [hsplit]
          unfold sumSquares
          rw [List.map_append, List.sum_append, List.map_cons, List.sum_cons]
        have hsq' : sumSquares (dv.eraseP (fun e => e.1 == t)) = sumSquares l₁ + sumSquares l₂ := by
          rw [herase]
          unfold sumSquares
          rw [List.map_append, List.sum_append]
        rw [hget, hsq, hsq']
        linarith
    have hmid := add_le_add_left h2 ((mapGetD dv (t, q).1 0) ^ 2)
    calc (mapGetD dv (t, q).1 0) ^ 2 + (rest.map (fun tq => (mapGetD (dv.eraseP (fun e => e.1 == t)) tq.1 0) ^ 2)).sum
        ≤ (mapGetD dv (t, q).1 0) ^ 2 + sumSquares (dv.eraseP (fun e => e.1 == t)) := hmid
      _ ≤ sumSquares dv := hhead

theorem dotProduct_le_mags (qv dv : JsMap String ℝ) (h : (mapKeys qv).Nodup) :
    dotProductOf qv dv ≤ vecMagnitude qv * vecMagnitude dv := by
  rw [dotProductOf_eq]
  have hcs := list_cauchy_schwarz (qv.map (fun tq => (tq.2, mapGetD dv tq.1 0)))
  simp only [List.map_map, Function.comp] at hcs
  have hsub := sum_getD_sq_le qv dv h
  have hq0 : 0 ≤ (qv.map (fun tq => tq.2 ^ 2)).sum := by
    apply List.sum_nonneg
    intro x hx
    obtain ⟨a, _, rfl⟩ := List.mem_map.mp hx
    exact sq_nonneg _
  have hsq : ((qv.map (fun tq => tq.2 * mapGetD dv tq.1 0)).sum) ^ 2
      ≤ sumSquares qv * sumSquares dv := by
    calc ((qv.map (fun tq => tq.2 * mapGetD dv tq.1 0)).sum) ^ 2
        ≤ ((qv.map (fun tq => tq.2 ^ 2)).sum) * ((qv.map (fun tq => (mapGetD dv tq.1 0) ^ 2)).sum) := hcs
      _ ≤ ((qv.map (fun tq => tq.2 ^ 2)).sum) * sumSquares dv := by
          exact mul_le_mul_of_nonneg_left hsub hq0
      _ = sumSquares qv * sumSquares dv := rfl
  calc (qv.map (fun tq => tq.2 * mapGetD dv tq.1 0)).sum
      ≤ |(qv.map (fun tq => tq.2 * mapGetD dv tq.1 0)).sum| := le_abs_self _
    _ = Real.sqrt (((qv.map (fun tq => tq.2 * mapGetD dv tq.1 0)).sum) ^ 2) :=
        (Real.sqrt_sq_eq_abs _).symm
    _ ≤ Real.sqrt (sumSquares qv * sumSquares dv) := Real.sqrt_le_sqrt hsq
    _ = vecMagnitude qv * vecMagnitude dv := by
        unfold vecMagnitude
        rw [Real.sqrt_mul (sumSquares_nonneg qv)]

theorem similarityOf_le_one (qv : JsMap String ℝ) (doc : DocumentVector)
    (hq : (mapKeys qv).Nodup) (hmag : doc.magnitude = vecMagnitude doc.vector) :
    similarityOf qv (vecMagnitude qv) doc ≤ 1 := by
  unfold similarityOf
  rcases eq_or_ne (vecMagnitude qv * doc.magnitude) 0 with h0 | h0
  · rw [h0, div_zero]
    norm_num
  · have hq0 : 0 ≤ vecMagnitude qv := vecMagnitude_nonneg qv
    have hd0 : 0 ≤ doc.magnitude := hmag ▸ vecMagnitude_nonneg doc.vector
    have hpos : 0 < vecMagnitude qv * doc.magnitude :=
      lt_of_le_of_ne (mul_nonneg hq0 hd0) (Ne.symm h0)
    rw [div_le_one hpos, hmag]
    exact dotProduct_le_mags qv doc.vector hq

theorem similarityOf_zero_magnitude (qv : JsMap String ℝ) (qMag : ℝ) (doc : DocumentVector)
    (hmag : doc.magnitude = vecMagnitude doc.vector) (h0 : doc.magnitude = 0) :
    similarityOf qv qMag doc = 0 := by
  unfold similarityOf
  have hz : ∀ e ∈ doc.vector, e.2 = 0 :=
    (vecMagnitude_eq_zero_iff doc.vector).mp (hmag ▸ h0)
  rw [dotProductOf_eq_zero_of_zero_vec qv doc.vector hz, zero_div]

theorem scoreDescBool_trans (a b c : SearchResult)
    (h₁ : scoreDescBool a b = true) (h₂ : scoreDescBool b c = true) :
    scoreDescBool a c = true := by
  unfold scoreDescBool at *
  rw [decide_eq_true_iff] at *
  exact le_trans h₂ h₁

theorem scoreDescBool_total (a b : SearchResult) :
    (scoreDescBool a b || scoreDescBool b a) = true := by
  unfold scoreDescBool
  rcases le_total b.score a.score with h | h
  · rw [decide_eq_true h]
    simp
  · rw [decide_eq_true h]
    simp

theorem search_eq_nil_of_qMag_zero (s : VectorIndexState) (query : String) (limit : Nat)
    (h : vecMagnitude (queryVectorOf s.idf query) = 0) : search s query limit = [] := by
  unfold search
  rw [if_pos h]

theorem search_eq_of_qMag_ne_zero (s : VectorIndexState) (query : String) (limit : Nat)
    (h : ¬vecMagnitude (queryVectorOf s.idf query) = 0) :
    search s query limit =
      (((s.documents.map
            (searchResultOf s.metadata (queryVectorOf s.idf query)
              (vecMagnitude (queryVectorOf s.idf query)))).mergeSort
          scoreDescBool).filter
        (fun r => decide ((0.1 : ℝ) < r.score))).take limit := by
  unfold search
  rw [if_neg h]

theorem mem_search (s : VectorIndexState) (query : String) (limit : Nat)
    (r : SearchResult) (h : r ∈ search s query limit) :
    (0.1 : ℝ) < r.score ∧
      ∃ doc ∈ s.documents,
        r = searchResultOf s.metadata (queryVectorOf s.idf query)
          (vecMagnitude (queryVectorOf s.idf query)) doc := by
  by_cases h0 : vecMagnitude (queryVectorOf s.idf query) = 0
  · rw [search_eq_nil_of_qMag_zero s query limit h0] at h
    simp at h
  · rw [search_eq_of_qMag_ne_zero s query limit h0] at h
    have h1 := List.mem_of_mem_take h
    rw [List.mem_filter] at h1
    have h2 := ((List.mergeSort_perm _ scoreDescBool).mem_iff).mp h1.1
    obtain ⟨doc, hdoc, rfl⟩ := List.mem_map.mp h2
    refine ⟨by simpa using h1.2, doc, hdoc, rfl⟩

theorem decodeEntries_num_encode (l : JsMap String ℝ) :
    decodeEntries decodeNumEntry (l.map (fun tw => Json.arr [.str tw.1, .num tw.2])) =
      some l := by
  induction l with
  | nil => rfl
  | cons e rest ih =>
    obtain ⟨t, w⟩ := e
    simp [decodeEntries, decodeNumEntry, ih]

theorem decodeEntries_str_encode (l : JsMap String String) :
    decodeEntries decodeStrEntry (l.map (fun ps => Json.arr [.str ps.1, .str ps.2])) =
      some l := by
  induction l with
  | nil => rfl
  | cons e rest ih =>
    obtain ⟨p, s⟩ := e
    simp [decodeEntries, decodeStrEntry, ih]

theorem jsNewMapNum_encode (l : JsMap String ℝ) (h : (mapKeys l).Nodup) :
    jsNewMapNum (some (.arr (l.map (fun tw => Json.arr [.str tw.1, .num tw.2])))) =
      some l := by
  show Option.map (fun l => List.foldl (fun m kv => mapSet m kv.1 kv.2) [] l)
      (decodeEntries decodeNumEntry (l.map (fun tw => Json.arr [.str tw.1, .num tw.2]))) =
    some l
  rw [decodeEntries_num_encode, Option.map_some',
    foldl_mapSet_append l [] h (by simp [mapKeys]), List.nil_append]

theorem jsNewMapStr_encode (l : JsMap String String) (h : (mapKeys l).Nodup) :
    jsNewMapStr (some (.arr (l.map (fun ps => Json.arr [.str ps.1, .str ps.2])))) =
      some l := by
  show Option.map (fun l => List.foldl (fun m kv => mapSet m kv.1 kv.2) [] l)
      (decodeEntries decodeStrEntry (l.map (fun ps => Json.arr [.str ps.1, .str ps.2]))) =
    some l
  rw [decodeEntries_str_encode, Option.map_some',
    foldl_mapSet_append l [] h (by simp [mapKeys]), List.nil_append]

theorem importState_some (s : VectorIndexState) (data : Json) :
    importState s (some data) =
      match jsNewMapNum (jsField data ("idf")) with
      | none => s
      | some idf2 =>
        match jsNewMapStr (jsField data ("metadata")) with
        | none => { s with idf := idf2 }
        | some md2 => { s with idf := idf2, metadata := md2 } :=
  rfl

theorem jsField_exportState_idf (s : VectorIndexState) :
    jsField (exportState s) ("idf") =
      some (.arr (s.idf.map (fun tw => Json.arr [.str tw.1, .num tw.2]))) :=
  rfl

theorem jsField_exportState_metadata (s : VectorIndexState) :
    jsField (exportState s) ("metadata") =
      some (.arr (s.metadata.map (fun ps => Json.arr [.str ps.1, .str ps.2]))) :=
  rfl

/-- C2 counterexample: the malformed payload `{"idf":[],"metadata":0}` is
valid JSON, so `JSON.parse` succeeds; `new Map([])` then replaces the `idf`
table with an empty map before `new Map(0)` throws, so the prior state is
changed and the new state is partially applied — `idf` replaced, `metadata`
kept — refuting the claim that a malformed payload leaves both tables
unchanged and is never partially applied. -/
theorem importState_partial_update :
    (importState stateTiny (some badPayload)).idf ≠ stateTiny.idf ∧
    (importState stateTiny (some badPayload)).metadata = stateTiny.metadata := by
  constructor
  · show ([] : JsMap String ℝ) ≠ [("alpha", 2)]
    simp
  · rfl

/-- C2 amended: `importState` never throws to its caller, and when the
payload string is rejected by `JSON.parse` the state is left completely
unchanged; but a malformed payload that parses as JSON can be partially
applied — there is a payload that replaces the `idf` table while leaving
`metadata` untouched. -/
theorem importState_parse_failure_safe :
    (∀ s : VectorIndexState, importState s none = s) ∧
    (importState stateTiny (some badPayload)).idf = [] ∧
    (importState stateTiny (some badPayload)).metadata = stateTiny.metadata :=
  ⟨fun _ => rfl, rfl, rfl⟩

/-- C4: for every index state satisfying the magnitude invariant of states
the source can build, every query and every limit, `search` returns at most
`limit` results, sorted in descending score order, and every returned score
lies in `(0.1, 1]`. -/
theorem search_output_contract (s : VectorIndexState) (query : String) (limit : Nat)
    (hmag : ∀ d ∈ s.documents, d.magnitude = vecMagnitude d.vector) :
    (search s query limit).length ≤ limit ∧
    List.Pairwise (fun a b => b.score ≤ a.score) (search s query limit) ∧
    ∀ r ∈ search s query limit, (0.1 : ℝ) < r.score ∧ r.score ≤ 1 := by
  refine ⟨?_, ?_, ?_⟩
  · by_cases h0 : vecMagnitude (queryVectorOf s.idf query) = 0
    · rw [search_eq_nil_of_qMag_zero s query limit h0]
      simp
    · rw [search_eq_of_qMag_ne_zero s query limit h0]
      exact List.length_take_le _ _
  · by_cases h0 : vecMagnitude (queryVectorOf s.idf query) = 0
    · rw [search_eq_nil_of_qMag_zero s query limit h0]
      simp
    · rw [search_eq_of_qMag_ne_zero s query limit h0]
      refine List.Pairwise.sublist (List.take_sublist _ _) ?_
      refine List.Pairwise.filter _ ?_
      have hs := List.sorted_mergeSort scoreDescBool_trans scoreDescBool_total
        (s.documents.map (searchResultOf s.metadata (queryVectorOf s.idf query)
          (vecMagnitude (queryVectorOf s.idf query))))
      exact hs.imp (fun hab => by
        unfold scoreDescBool at hab
        exact decide_eq_true_iff.mp hab)
  · intro r hr
    obtain ⟨h01, doc, hdoc, rfl⟩ := mem_search s query limit r hr
    exact ⟨h01, similarityOf_le_one (queryVectorOf s.idf query) doc
      (nodup_mapKeys_queryVector s.idf query) (hmag doc hdoc)⟩

/-- C4 witness: the contract instantiated at the initial (empty) state,
whose magnitude invariant holds vacuously. -/
theorem search_output_contract_witness :
    (∀ d ∈ initialState.documents, d.magnitude = vecMagnitude d.vector) ∧
    ((search initialState "alpha" 3).length ≤ 3 ∧
     List.Pairwise (fun a b => b.score ≤ a.score) (search initialState "alpha" 3) ∧
     ∀ r ∈ search initialState "alpha" 3, (0.1 : ℝ) < r.score ∧ r.score ≤ 1) :=
  ⟨by simp [initialState],
   search_output_contract initialState "alpha" 3 (by simp [initialState])⟩

/-- C5: a document of the index whose magnitude is zero is assigned
similarity exactly 0 (the numerator is zero because the magnitude invariant
forces every weight to be zero, so the JavaScript `0/0` is `NaN`, coerced to
`0` by `|| 0`), and its result entry is never returned since 0 is below the
0.1 threshold. -/
theorem zero_magnitude_sim_zero (s : VectorIndexState) (query : String) (limit : Nat)
    (doc : DocumentVector) (_hdoc : doc ∈ s.documents)
    (hinv : doc.magnitude = vecMagnitude doc.vector) (h0 : doc.magnitude = 0) :
    similarityOf (queryVectorOf s.idf query)
        (vecMagnitude (queryVectorOf s.idf query)) doc = 0 ∧
    searchResultOf s.metadata (queryVectorOf s.idf query)
        (vecMagnitude (queryVectorOf s.idf query)) doc ∉ search s query limit := by
  have hsim := similarityOf_zero_magnitude (queryVectorOf s.idf query)
    (vecMagnitude (queryVectorOf s.idf query)) doc hinv h0
  refine ⟨hsim, ?_⟩
  intro hmem
  have h1 := (mem_search s query limit _ hmem).1
  rw [show (searchResultOf s.metadata (queryVectorOf s.idf query)
        (vecMagnitude (queryVectorOf s.idf query)) doc).score
      = similarityOf (queryVectorOf s.idf query)
        (vecMagnitude (queryVectorOf s.idf query)) doc from rfl, hsim] at h1
  norm_num at h1

/-- C5 witness: the zero-magnitude document of `stateZero`. -/
theorem zero_magnitude_sim_zero_witness :
    docZero ∈ stateZero.documents ∧
    docZero.magnitude = vecMagnitude docZero.vector ∧
    docZero.magnitude = 0 ∧
    similarityOf (queryVectorOf stateZero.idf "anything")
      (vecMagnitude (queryVectorOf stateZero.idf "anything")) docZero = 0 := by
  have hinv : docZero.magnitude = vecMagnitude docZero.vector := by
    simp [docZero, vecMagnitude, sumSquares]
  exact ⟨List.mem_cons_self _ _, hinv, rfl,
    (zero_magnitude_sim_zero stateZero "anything" 3 docZero
      (List.mem_cons_self _ _) hinv rfl).1⟩

/-- C6: whenever the weighted query magnitude is zero — in particular for
the empty query and for queries all of whose tokens are unknown to the
corpus `idf` table — `search` returns the empty list (the guard returns
before the scoring loop, so no division by the query magnitude happens). -/
theorem degenerate_query_empty (s : VectorIndexState) (query : String) (limit : Nat) :
    (vecMagnitude (queryVectorOf s.idf query) = 0 → search s query limit = []) ∧
    search s "" limit = [] ∧
    ((∀ t ∈ tokenize query, mapGet s.idf t = none) → search s query limit = []) := by
  refine ⟨search_eq_nil_of_qMag_zero s query limit, ?_, ?_⟩
  · apply search_eq_nil_of_qMag_zero
    rw [queryVectorOf, show termFreq (tokenize "") = [] from by decide]
    simp [weightVec, vecMagnitude, sumSquares]
  · intro hunk
    apply search_eq_nil_of_qMag_zero
    rw [vecMagnitude_eq_zero_iff]
    intro e he
    rw [queryVectorOf] at he
    unfold weightVec at he
    obtain ⟨tc, htc, rfl⟩ := List.mem_map.mp he
    have hmem : tc.1 ∈ tokenize query :=
      (mem_mapKeys_termFreq (tokenize query) tc.1).mp (List.mem_map.mpr ⟨tc, htc, rfl⟩)
    have hnone := hunk tc.1 hmem
    simp [mapGetD, hnone]

/-- C6 witness: the empty query and a fully-unknown query on the initial
state both return no results. -/
theorem degenerate_query_empty_witness :
    search initialState "" 3 = [] ∧ search initialState "zzzz" 3 = [] :=
  ⟨(degenerate_query_empty initialState "" 3).2.1,
   (degenerate_query_empty initialState "zzzz" 3).2.2 (fun _ _ => rfl)⟩

/-- C8: for every index state representable by the class (JavaScript `Map`s
cannot hold duplicate keys), `importState(exportState())` succeeds and
restores exactly the same `idf` and `metadata` tables, and `importState`
never touches the document vectors. -/
theorem exportImport_round_trip (s : VectorIndexState)
    (hidf : (mapKeys s.idf).Nodup) (hmd : (mapKeys s.metadata).Nodup) :
    importState s (some (exportState s)) = s ∧
    ∀ payload, (importState s payload).documents = s.documents := by
  constructor
  · rw [importState_some, jsField_exportState_idf, jsField_exportState_metadata,
      jsNewMapNum_encode s.idf hidf, jsNewMapStr_encode s.metadata hmd]
  · intro payload
    cases payload with
    | none => rfl
    | some data =>
      rw [importState_some]
      cases h1 : jsNewMapNum (jsField data ("idf")) with
      | none => rfl
      | some idf2 =>
        cases h2 : jsNewMapStr (jsField data ("metadata")) with
        | none => rfl
        | some md2 => rfl

/-- C8 witness: the round trip at a concrete one-entry state. -/
theorem exportImport_round_trip_witness :
    (mapKeys stateTiny.idf).Nodup ∧ (mapKeys stateTiny.metadata).Nodup ∧
    importState stateTiny (some (exportState stateTiny)) = stateTiny :=
  ⟨by simp [stateTiny, mapKeys], by simp [stateTiny, mapKeys],
   (exportImport_round_trip stateTiny (by simp [stateTiny, mapKeys])
     (by simp [stateTiny, mapKeys])).1⟩

/-- C10: `search` is read-only — the state-transformer view hands back the
`documents`, `idf` and `metadata` tables it received, unchanged, alongside
the result list. -/
theorem search_read_only (s : VectorIndexState) (query : String) (limit : Nat) :
    (searchM s query limit).1 = s ∧
    (searchM s query limit).1.documents = s.documents ∧
    (searchM s query limit).1.idf = s.idf ∧
    (searchM s query limit).1.metadata = s.metadata ∧
    (searchM s query limit).2 = search s query limit :=
  ⟨rfl, rfl, rfl, rfl, rfl⟩

/-- C3: after `createIndex(files)` a document is vectorized exactly when the
category filter keeps it (language `python`, or a `.txt`/`.md` path), and the
`idf` table maps precisely the terms occurring in at least one vectorized
document, with `idf[t] = ln(N / (1 + docFrequency t))` where `N` counts all
input files. -/
theorem createIndex_idf_invariant (files : List ProjectFile) (t : String) :
    (createIndex files).documents.map (fun d => d.path) =
      (files.filter shouldVectorize).map (fun f => f.path) ∧
    mapGet (createIndex files).idf t =
      (if 0 < docFrequency files t then
        some (Real.log ((files.length : ℝ) / (1 + (docFrequency files t : ℝ))))
      else none) := by
  constructor
  · rw [show (createIndex files).documents
        = (keptFiles files).map (fun f =>
            { path := f.path,
              vector := weightVec (idfOf files) (termFreq (tokenize f.content)),
              magnitude :=
                vecMagnitude (weightVec (idfOf files) (termFreq (tokenize f.content))) })
      from rfl]
    rw [List.map_map]
    rfl
  · rw [show (createIndex files).idf = idfOf files from rfl, mapGet_idfOf]
    by_cases h : 0 < docFrequency files t
    · have hne : mapGet (docCountsOf files) t ≠ none := by
        intro hnone
        rw [mapGet_docCounts_none_iff] at hnone
        omega
      obtain ⟨c, hc⟩ := Option.ne_none_iff_exists'.mp hne
      have hcval : c = docFrequency files t := by
        have hgd := mapGetD_docCounts files t
        rw [mapGetD, hc] at hgd
        simpa using hgd
      rw [hc, if_pos h, hcval]
      rfl
    · have h0 : docFrequency files t = 0 := by omega
      rw [(mapGet_docCounts_none_iff files t).mpr h0, if_neg h]
      rfl

theorem mapGetD_idfOf_of_count (files : List ProjectFile) (t : String) (c : Nat)
    (h : mapGet (docCountsOf files) t = some c) :
    mapGetD (idfOf files) t 0 = Real.log ((files.length : ℝ) / (1 + (c : ℝ))) := by
  rw [mapGetD, mapGet_idfOf, h]
  rfl

theorem searchAB_nil : search (createIndex corpusAB) "requests get" 3 = [] := by
  apply search_eq_nil_of_qMag_zero
  rw [show (createIndex corpusAB).idf = idfOf corpusAB from rfl]
  rw [vecMagnitude_eq_zero_iff]
  intro e he
  rw [queryVectorOf,
    show termFreq (tokenize "requests get") = [("requests", 1), ("get", 1)] from by decide]
    at he
  unfold weightVec at he
  have hreq : mapGetD (idfOf corpusAB) "requests" 0 = 0 := by
    rw [mapGetD_idfOf_of_count corpusAB "requests" 1 (by decide)]
    norm_num [corpusAB, Real.log_one]
  have hget : mapGetD (idfOf corpusAB) "get" 0 = 0 := by
    rw [mapGetD_idfOf_of_count corpusAB "get" 1 (by decide)]
    norm_num [corpusAB, Real.log_one]
  simp only [List.map_cons, List.map_nil, List.mem_cons, List.not_mem_nil, or_false] at he
  rcases he with rfl | rfl
  · simp [hreq]
  · simp [hget]

/-- C1 counterexample: on the two-file corpus every term appears in exactly
one of the two vectorized documents, so every idf weight is
`ln(2 / (1 + 1)) = 0`; the query vector of `"requests get"` is all-zero, the
zero-magnitude guard fires, and `search` returns no result at all — in
particular no result for `a.py` with score above 0.1, contrary to the
claim. -/
theorem searchAB_no_apy_result :
    ¬∃ r ∈ search (createIndex corpusAB) "requests get" 3,
      r.path = "a.py" ∧ (0.1 : ℝ) < r.score := by
  rw [searchAB_nil]
  simp

/-- C1 amended: on that corpus `search("requests get")` indeed returns no
result for `b.py`, but it returns no result for `a.py` either — the result
list is empty, because every idf is `ln(2/2) = 0` and the query magnitude is
therefore zero. -/
theorem searchAB_empty_result :
    search (createIndex corpusAB) "requests get" 3 = [] ∧
    "b.py" ∉ (search (createIndex corpusAB) "requests get" 3).map (fun r => r.path) := by
  refine ⟨searchAB_nil, ?_⟩
  rw [searchAB_nil]
  simp

theorem idfDB_database :
    mapGet (idfOf corpusDB) "database" = some (Real.log ((1:ℝ)/2)) := by
  rw [mapGet_idfOf, show mapGet (docCountsOf corpusDB) "database" = some 1 from by decide]
  norm_num [corpusDB]
  rw [one_div, Real.log_inv]

theorem idfDB_example :
    mapGet (idfOf corpusDB) "example" = some (Real.log ((1:ℝ)/2)) := by
  rw [mapGet_idfOf, show mapGet (docCountsOf corpusDB) "example" = some 1 from by decide]
  norm_num [corpusDB]
  rw [one_div, Real.log_inv]

theorem qvDB :
    queryVectorOf (idfOf corpusDB) "database" = [("database", Real.log ((1:ℝ)/2))] := by
  rw [queryVectorOf, show termFreq (tokenize "database") = [("database", 1)] from by decide]
  unfold weightVec
  simp [mapGetD, idfDB_database]

theorem docvecDB :
    weightVec (idfOf corpusDB)
        (termFreq (tokenize "database database database database database example"))
      = [("database", 5 * Real.log ((1:ℝ)/2)), ("example", Real.log ((1:ℝ)/2))] := by
  rw [show termFreq (tokenize "database database database database database example")
      = [("database", 5), ("example", 1)] from by decide]
  unfold weightVec
  simp [mapGetD, idfDB_database, idfDB_example]

theorem qmagDB :
    vecMagnitude [("database", Real.log ((1:ℝ)/2))] = Real.log 2 := by
  have hL : Real.log ((1:ℝ)/2) = -Real.log 2 := by
    rw [one_div, Real.log_inv]
  unfold vecMagnitude sumSquares
  rw [hL]
  simp only [List.map_cons, List.map_nil, List.sum_cons, List.sum_nil, add_zero]
  rw [neg_pow, show (-1:ℝ)^2 * Real.log 2 ^ 2 = Real.log 2 ^ 2 by ring]
  exact Real.sqrt_sq (Real.log_nonneg (by norm_num))

theorem dmagDB :
    vecMagnitude [("database", 5 * Real.log ((1:ℝ)/2)), ("example", Real.log ((1:ℝ)/2))]
      = Real.log 2 * Real.sqrt 26 := by
  have hL : Real.log ((1:ℝ)/2) = -Real.log 2 := by
    rw [one_div, Real.log_inv]
  unfold vecMagnitude sumSquares
  rw [hL]
  simp only [List.map_cons, List.map_nil, List.sum_cons, List.sum_nil, add_zero]
  rw [show (5 * -Real.log 2) ^ 2 + (-Real.log 2) ^ 2 = Real.log 2 ^ 2 * 26 by ring]
  rw [Real.sqrt_mul (sq_nonneg _), Real.sqrt_sq (Real.log_nonneg (by norm_num))]

/-- C7: on the one-document corpus with `database` occurring five times,
`search("database")` returns exactly that document, its score lies strictly
between 0.9 and 1 (it is `5/sqrt 26`), and the idf weight of `database` is
`ln(1/2)`, which is non-zero even though the term occurs in every document
of the `N = 1` corpus. -/
theorem single_doc_near_one :
    (search (createIndex corpusDB) "database" 3).map (fun r => r.path) = ["db.py"] ∧
    (search (createIndex corpusDB) "database" 3).map (fun r => r.score)
      = [5 / Real.sqrt 26] ∧
    ((0.9:ℝ) < 5 / Real.sqrt 26 ∧ (5:ℝ) / Real.sqrt 26 < 1) ∧
    mapGet (createIndex corpusDB).idf "database" = some (Real.log ((1:ℝ)/2)) ∧
    Real.log ((1:ℝ)/2) ≠ 0 := by
  have hlog2 : (0:ℝ) < Real.log 2 := Real.log_pos (by norm_num)
  have hL : Real.log ((1:ℝ)/2) = -Real.log 2 := by
    rw [one_div, Real.log_inv]
  have hLne : Real.log ((1:ℝ)/2) ≠ 0 := by
    rw [hL]
    exact neg_ne_zero.mpr (ne_of_gt hlog2)
  have hidf : (createIndex corpusDB).idf = idfOf corpusDB := rfl
  have hqv : queryVectorOf (createIndex corpusDB).idf "database"
      = [("database", Real.log ((1:ℝ)/2))] := by
    rw [hidf]
    exact qvDB
  have hqmag : vecMagnitude (queryVectorOf (createIndex corpusDB).idf "database")
      = Real.log 2 := by
    rw [hqv]
    exact qmagDB
  have hqne : ¬vecMagnitude (queryVectorOf (createIndex corpusDB).idf "database") = 0 := by
    rw [hqmag]
    exact ne_of_gt hlog2
  have hkept : keptFiles corpusDB = corpusDB := by decide
  have hdocs : (createIndex corpusDB).documents = [docDB] := by
    rw [show (createIndex corpusDB).documents
        = (keptFiles corpusDB).map (fun f =>
            { path := f.path,
              vector := weightVec (idfOf corpusDB) (termFreq (tokenize f.content)),
              magnitude :=
                vecMagnitude (weightVec (idfOf corpusDB) (termFreq (tokenize f.content))) })
      from rfl, hkept]
    rfl
  have hs26 : (0:ℝ) < Real.sqrt 26 := Real.sqrt_pos.mpr (by norm_num)
  have hscore : (searchResultOf (createIndex corpusDB).metadata
        (queryVectorOf (createIndex corpusDB).idf "database")
        (vecMagnitude (queryVectorOf (createIndex corpusDB).idf "database")) docDB).score
      = 5 / Real.sqrt 26 := by
    show similarityOf (queryVectorOf (createIndex corpusDB).idf "database")
        (vecMagnitude (queryVectorOf (createIndex corpusDB).idf "database")) docDB
      = 5 / Real.sqrt 26
    unfold similarityOf
    rw [hqmag, hqv]
    rw [show docDB.vector = weightVec (idfOf corpusDB)
        (termFreq (tokenize "database database database database database example"))
      from rfl]
    rw [show docDB.magnitude = vecMagnitude (weightVec (idfOf corpusDB)
        (termFreq (tokenize "database database database database database example")))
      from rfl]
    rw [docvecDB, dmagDB, dotProductOf_eq]
    have hgd : mapGetD
        [("database", 5 * Real.log ((1:ℝ)/2)), ("example", Real.log ((1:ℝ)/2))]
        "database" 0 = 5 * Real.log ((1:ℝ)/2) := by
      simp [mapGetD, mapGet]
    simp only [List.map_cons, List.map_nil, List.sum_cons, List.sum_nil, add_zero]
    rw [hgd, hL]
    have h2ne : Real.log 2 ≠ 0 := ne_of_gt hlog2
    have hsne : Real.sqrt 26 ≠ 0 := ne_of_gt hs26
    field_simp
    ring
  have hgt09 : (0.9:ℝ) < 5 / Real.sqrt 26 := by
    rw [lt_div_iff₀ hs26]
    have h26 : Real.sqrt 26 < 50/9 := by
      rw [Real.sqrt_lt' (by norm_num : (0:ℝ) < 50/9)]
      norm_num
    nlinarith
  have hlt1 : 5 / Real.sqrt 26 < 1 := by
    rw [div_lt_one hs26]
    exact (Real.lt_sqrt (by norm_num : (0:ℝ) ≤ 5)).mpr (by norm_num : (5:ℝ)^2 < 26)
  have h01 : (0.1:ℝ) < (searchResultOf (createIndex corpusDB).metadata
        (queryVectorOf (createIndex corpusDB).idf "database")
        (vecMagnitude (queryVectorOf (createIndex corpusDB).idf "database")) docDB).score := by
    rw [hscore]
    linarith
  have hres : search (createIndex corpusDB) "database" 3
      = [searchResultOf (createIndex corpusDB).metadata
          (queryVectorOf (createIndex corpusDB).idf "database")
          (vecMagnitude (queryVectorOf (createIndex corpusDB).idf "database")) docDB] := by
    rw [search_eq_of_qMag_ne_zero _ _ _ hqne, hdocs]
    rw [List.map_cons, List.map_nil, List.mergeSort_singleton, List.filter_cons]
    rw [if_pos (decide_eq_true h01)]
    rw [List.filter_nil]
    rfl
  refine ⟨?_, ?_, ⟨hgt09, hlt1⟩, ?_, hLne⟩
  · rw [hres]
    rfl
  · rw [hres, List.map_cons, List.map_nil, hscore]
  · rw [hidf]
    exact idfDB_database

end VectorService
